import Mathlib

/-!
# Verification of the pizza-app cart/discount/limit engine

Shallow embedding of the cart state logic (`src/store/slices/cartSlice.ts`),
the pricing selectors (`src/store/selectors.ts`), and the order-confirmation
handler (`Cart` page) of the pizza-ordering storefront, together with proofs
of the specified invariants, clamping laws, discount laws and scenarios.

Modelling conventions:
* JavaScript `number` values used as item quantities are modelled as `Int`
  (the code only ever adds/subtracts/compares them);
* JavaScript `number` values used as prices/amounts are modelled as `ℚ`
  (exact decimal arithmetic; `Math.round` is `⌊x + 1/2⌋`, JS rounds halves
  toward +∞);
* Redux state mutation through immer is modelled as explicit state passing:
  each reducer is a function from the old state (plus the action payload) to
  the new state.  `state.items.find(...)` followed by mutation of the found
  element is modelled by `updateFirst`, which rewrites the first matching
  element of the list.
-/

namespace PizzaApp

/-- `CART_LIMITS.MAX_QUANTITY_PER_ITEM` from `src/constants/cart.ts`. -/
def MAX_QUANTITY_PER_ITEM : Int := 25

/-- `CART_LIMITS.MAX_TOTAL_ITEMS` from `src/constants/cart.ts`. -/
def MAX_TOTAL_ITEMS : Int := 50

/-- `CART_LIMITS.DISCOUNT_THRESHOLD` from `src/constants/cart.ts`. -/
def DISCOUNT_THRESHOLD : Int := 3

/-- `CART_LIMITS.DISCOUNT_PERCENTAGE` from `src/constants/cart.ts` (0.10). -/
def DISCOUNT_PERCENTAGE : ℚ := 1/10

/-- `CartItem` from `src/types/index.ts`: a cart line. -/
structure CartItem where
  pizzaId : String
  quantity : Int
deriving Repr, DecidableEq

/-- `getTotalQuantity` helper of `cartSlice.ts`:
`items.reduce((sum, item) => sum + item.quantity, 0)`. -/
def getTotalQuantity (items : List CartItem) : Int :=
  items.foldl (fun sum item => sum + item.quantity) 0

/-- `getItemQuantity` helper of `cartSlice.ts`:
`items.find((i) => i.pizzaId === pizzaId)?.quantity || 0`. -/
def getItemQuantity (items : List CartItem) (pizzaId : String) : Int :=
  match items.find? (fun i => i.pizzaId == pizzaId) with
  | some item => item.quantity
  | none => 0

/-- Immer-style in-place mutation of the element returned by
`items.find((i) => i.pizzaId === pizzaId)`: rewrite the quantity of the
first matching line, keep everything else unchanged. -/
def updateFirst (items : List CartItem) (pizzaId : String) (f : Int → Int) :
    List CartItem :=
  match items with
  | [] => []
  | item :: rest =>
    if item.pizzaId == pizzaId then { item with quantity := f item.quantity } :: rest
    else item :: updateFirst rest pizzaId f

/-- The `addToCart` reducer of `cartSlice.ts`. -/
def addToCart (items : List CartItem) (pizzaId : String) (quantity : Int) :
    List CartItem :=
  let currentItemQuantity := getItemQuantity items pizzaId
  let currentTotal := getTotalQuantity items
  let remainingPerItem := MAX_QUANTITY_PER_ITEM - currentItemQuantity
  let remainingTotal := MAX_TOTAL_ITEMS - currentTotal
  let quantityToAdd := min quantity (min remainingPerItem remainingTotal)
  if quantityToAdd ≤ 0 then items
  else
    match items.find? (fun i => i.pizzaId == pizzaId) with
    | some _ => updateFirst items pizzaId (fun q => q + quantityToAdd)
    | none => items ++ [{ pizzaId := pizzaId, quantity := quantityToAdd }]

/-- The `removeFromCart` reducer of `cartSlice.ts`:
`state.items = state.items.filter((item) => item.pizzaId !== action.payload)`. -/
def removeFromCart (items : List CartItem) (pizzaId : String) : List CartItem :=
  items.filter (fun item => item.pizzaId != pizzaId)

/-- The `updateQuantity` reducer of `cartSlice.ts`. -/
def updateQuantity (items : List CartItem) (pizzaId : String) (quantity : Int) :
    List CartItem :=
  match items.find? (fun i => i.pizzaId == pizzaId) with
  | none => items
  | some item =>
    if quantity ≤ 0 then items.filter (fun i => i.pizzaId != pizzaId)
    else
      let diff := quantity - item.quantity
      let currentTotal := getTotalQuantity items
      let remainingTotal := MAX_TOTAL_ITEMS - currentTotal
      let newQuantity :=
        if 0 < diff then
          min (item.quantity + min diff remainingTotal) MAX_QUANTITY_PER_ITEM
        else
          min quantity MAX_QUANTITY_PER_ITEM
      updateFirst items pizzaId (fun _ => newQuantity)

/-- The `incrementQuantity` reducer of `cartSlice.ts`. -/
def incrementQuantity (items : List CartItem) (pizzaId : String) : List CartItem :=
  match items.find? (fun i => i.pizzaId == pizzaId) with
  | none => items
  | some item =>
    let currentTotal := getTotalQuantity items
    if item.quantity < MAX_QUANTITY_PER_ITEM ∧ currentTotal < MAX_TOTAL_ITEMS then
      updateFirst items pizzaId (fun q => q + 1)
    else items

/-- The `decrementQuantity` reducer of `cartSlice.ts`. -/
def decrementQuantity (items : List CartItem) (pizzaId : String) : List CartItem :=
  match items.find? (fun i => i.pizzaId == pizzaId) with
  | none => items
  | some item =>
    if item.quantity ≤ 1 then items.filter (fun i => i.pizzaId != pizzaId)
    else updateFirst items pizzaId (fun q => q - 1)

/-- The `clearCart` reducer of `cartSlice.ts`: `state.items = []`. -/
def clearCart (_items : List CartItem) : List CartItem := []

/-- One dispatched cart action (the six quantity-relevant reducers of
`cartSlice.ts`; `toggleCart`/`setCartOpen` do not touch `items`). -/
inductive CartOp where
  | add (pizzaId : String) (quantity : Int)
  | update (pizzaId : String) (quantity : Int)
  | increment (pizzaId : String)
  | decrement (pizzaId : String)
  | remove (pizzaId : String)
  | clear
deriving Repr, DecidableEq

/-- Dispatch of a single cart action. -/
def applyOp (items : List CartItem) : CartOp → List CartItem
  | .add pizzaId quantity => addToCart items pizzaId quantity
  | .update pizzaId quantity => updateQuantity items pizzaId quantity
  | .increment pizzaId => incrementQuantity items pizzaId
  | .decrement pizzaId => decrementQuantity items pizzaId
  | .remove pizzaId => removeFromCart items pizzaId
  | .clear => clearCart items

/-- Dispatch of a finite sequence of cart actions, oldest first. -/
def applyOps (ops : List CartOp) (items : List CartItem) : List CartItem :=
  ops.foldl applyOp items

/-- The cart-store invariants of the specification: every line present has
quantity between 1 and `MAX_QUANTITY_PER_ITEM`, and the quantities sum to at
most `MAX_TOTAL_ITEMS`. -/
def CartInv (items : List CartItem) : Prop :=
  (∀ item ∈ items, 1 ≤ item.quantity ∧ item.quantity ≤ MAX_QUANTITY_PER_ITEM) ∧
    getTotalQuantity items ≤ MAX_TOTAL_ITEMS

instance : DecidablePred CartInv := fun items => by
  unfold CartInv; infer_instance

/-- `PizzaCategory` from `src/types/index.ts`. -/
inductive PizzaCategory where
  | classic
  | meat
  | vegetarian
  | specialty
deriving Repr, DecidableEq

/-- `Pizza` from `src/types/index.ts`: a read-only catalog entry. -/
structure Pizza where
  id : String
  name : String
  description : String
  price : ℚ
  category : PizzaCategory
  ingredients : List String
  imageUrl : String
  isVegetarian : Bool
  isSpicy : Bool
  rating : ℚ
  prepTime : ℚ
deriving Repr, DecidableEq

/-- `OrderItem` from `src/types/index.ts`: a derived order line. -/
structure OrderItem where
  pizza : Pizza
  quantity : Int
  originalPrice : ℚ
  discountAmount : ℚ
  finalPrice : ℚ
deriving Repr, DecidableEq

/-- JavaScript `Math.round` on an exact rational: round to the nearest
integer, halves toward +∞, i.e. `⌊x + 1/2⌋`. -/
def jsRound (x : ℚ) : Int := ⌊x + 1/2⌋

/-- `Math.round(x * 100) / 100` — rounding an amount to 2 decimal places as
done in `selectCartTotals`. -/
def round2 (x : ℚ) : ℚ := (jsRound (x * 100) : ℚ) / 100

/-- `selectCartWithDetails` from `src/store/selectors.ts`: map each cart line
to its derived order line (dropping lines whose pizza is not in the catalog;
the source's `.map(...)` to `OrderItem | null` followed by
`.filter((item) => item !== null)` is `List.filterMap`). -/
def selectCartWithDetails (cartItems : List CartItem) (pizzas : List Pizza) :
    List OrderItem :=
  cartItems.filterMap (fun cartItem =>
    match pizzas.find? (fun p => p.id == cartItem.pizzaId) with
    | none => none
    | some pizza =>
      let originalPrice := pizza.price * (cartItem.quantity : ℚ)
      let discountAmount :=
        if DISCOUNT_THRESHOLD ≤ cartItem.quantity then
          originalPrice * DISCOUNT_PERCENTAGE
        else 0
      let finalPrice := originalPrice - discountAmount
      some { pizza := pizza, quantity := cartItem.quantity,
             originalPrice := originalPrice, discountAmount := discountAmount,
             finalPrice := finalPrice })

/-- The record returned by `selectCartTotals`. -/
structure CartTotals where
  subtotal : ℚ
  totalDiscount : ℚ
  total : ℚ
deriving Repr, DecidableEq

/-- `selectCartTotals` from `src/store/selectors.ts`, as a function of the
derived order-line list produced by `selectCartWithDetails`. -/
def selectCartTotals (items : List OrderItem) : CartTotals :=
  let subtotal := items.foldl (fun sum item => sum + item.originalPrice) 0
  let totalDiscount := items.foldl (fun sum item => sum + item.discountAmount) 0
  let total := subtotal - totalDiscount
  { subtotal := round2 subtotal
    totalDiscount := round2 totalDiscount
    total := round2 total }

/-- The `limitType` classification returned by `selectCanAddToCart`. -/
inductive LimitType where
  | none
  | per_item
  | total
deriving Repr, DecidableEq

/-- The record returned by `selectCanAddToCart`. -/
structure CanAddResult where
  canAdd : Bool
  maxAddable : Int
  limitType : LimitType
deriving Repr, DecidableEq

/-- `selectCanAddToCart` from `src/store/selectors.ts` (its `totalCount`
input, `selectCartItemsCount`, is the same reduce-sum as `getTotalQuantity`). -/
def selectCanAddToCart (items : List CartItem) (pizzaId : String)
    (quantity : Int) : CanAddResult :=
  let totalCount := getTotalQuantity items
  let currentItemQuantity := getItemQuantity items pizzaId
  let remainingPerItem := MAX_QUANTITY_PER_ITEM - currentItemQuantity
  let remainingTotal := MAX_TOTAL_ITEMS - totalCount
  let maxAddable := min remainingPerItem remainingTotal
  if maxAddable ≤ 0 then
    { canAdd := false, maxAddable := 0,
      limitType := if remainingPerItem ≤ 0 then .per_item else .total }
  else
    { canAdd := decide (quantity ≤ maxAddable), maxAddable := maxAddable,
      limitType :=
        if maxAddable < quantity then
          if remainingPerItem ≤ remainingTotal then .per_item else .total
        else .none }

/-- `OrderStatus` from `src/types/index.ts`. -/
inductive OrderStatus where
  | pending
  | confirmed
  | preparing
  | ready
  | delivered
deriving Repr, DecidableEq

/-- `Order` from `src/types/index.ts`: an immutable snapshot of a confirmed
cart. -/
structure Order where
  id : String
  items : List OrderItem
  subtotal : ℚ
  totalDiscount : ℚ
  total : ℚ
  createdAt : String
  status : OrderStatus
deriving Repr, DecidableEq

/-- The state of `orderSlice.ts`. -/
structure OrderState where
  orders : List Order
  currentOrderId : Option String
  isProcessing : Bool
deriving Repr, DecidableEq

/-- The `addOrder` reducer of `orderSlice.ts`: append the order and point
`currentOrderId` at it. -/
def addOrder (s : OrderState) (o : Order) : OrderState :=
  { s with orders := s.orders ++ [o], currentOrderId := some o.id }

/-- The `setProcessing` reducer of `orderSlice.ts`. -/
def setProcessing (s : OrderState) (b : Bool) : OrderState :=
  { s with isProcessing := b }

/-- `handleConfirmOrder` from the `Cart` page: reject (returning `none` and
dispatching only an error notification) when the derived line list is empty;
otherwise build an `Order` from the current derived lines and totals, append
it to the order log, and clear the cart.  The generated uuid and the captured
timestamp are passed in as parameters `newId` and `now`; the simulated
`setTimeout` delay is cosmetic and elided. -/
def handleConfirmOrder (newId now : String) (cart : List CartItem)
    (pizzas : List Pizza) (orderState : OrderState) :
    List CartItem × OrderState × Option Order :=
  let cartItems := selectCartWithDetails cart pizzas
  let totals := selectCartTotals cartItems
  if cartItems.length = 0 then
    (cart, orderState, none)
  else
    let order : Order :=
      { id := newId, items := cartItems, subtotal := totals.subtotal,
        totalDiscount := totals.totalDiscount, total := totals.total,
        createdAt := now, status := .confirmed }
    (clearCart cart,
     setProcessing (addOrder (setProcessing orderState true) order) false,
     some order)

/-! ## Basic lemmas about the cart helpers -/

theorem foldl_add_quantity (l : List CartItem) (s : Int) :
    l.foldl (fun sum item => sum + item.quantity) s = s + getTotalQuantity l := by
  induction l generalizing s with
  | nil => simp [getTotalQuantity]
  | cons x l ih =>
    simp only [getTotalQuantity, List.foldl_cons] at *
    rw [ih, ih (0 + x.quantity)]
    ring

theorem getTotalQuantity_nil : getTotalQuantity [] = 0 := rfl

theorem getTotalQuantity_cons (x : CartItem) (l : List CartItem) :
    getTotalQuantity (x :: l) = x.quantity + getTotalQuantity l := by
  simpa [getTotalQuantity] using foldl_add_quantity l x.quantity

theorem getTotalQuantity_append (l₁ l₂ : List CartItem) :
    getTotalQuantity (l₁ ++ l₂) = getTotalQuantity l₁ + getTotalQuantity l₂ := by
  induction l₁ with
  | nil => simp [getTotalQuantity_nil]
  | cons x l ih => simp [getTotalQuantity_cons, ih]; ring

theorem getItemQuantity_of_find?_eq_some {items : List CartItem} {pizzaId : String}
    {a : CartItem} (h : items.find? (fun i => i.pizzaId == pizzaId) = some a) :
    getItemQuantity items pizzaId = a.quantity := by
  simp [getItemQuantity, h]

theorem getItemQuantity_of_find?_eq_none {items : List CartItem} {pizzaId : String}
    (h : items.find? (fun i => i.pizzaId == pizzaId) = none) :
    getItemQuantity items pizzaId = 0 := by
  simp [getItemQuantity, h]

theorem pizzaId_of_find?_eq_some {items : List CartItem} {pizzaId : String}
    {a : CartItem} (h : items.find? (fun i => i.pizzaId == pizzaId) = some a) :
    a.pizzaId = pizzaId := by
  have := List.find?_some h
  simpa using this

theorem mem_of_find?_eq_some {items : List CartItem} {pizzaId : String}
    {a : CartItem} (h : items.find? (fun i => i.pizzaId == pizzaId) = some a) :
    a ∈ items :=
  List.mem_of_find?_eq_some h

/-! ## Lemmas about `updateFirst` -/

theorem getTotalQuantity_updateFirst {items : List CartItem} {pizzaId : String}
    {a : CartItem} (h : items.find? (fun i => i.pizzaId == pizzaId) = some a)
    (f : Int → Int) :
    getTotalQuantity (updateFirst items pizzaId f) =
      getTotalQuantity items - a.quantity + f a.quantity := by
  induction items with
  | nil => simp at h
  | cons x l ih =>
    cases hx : x.pizzaId == pizzaId with
    | true =>
      simp only [List.find?_cons, hx] at h
      cases h
      simp [updateFirst, hx, getTotalQuantity_cons]
      ring
    | false =>
      simp only [List.find?_cons, hx] at h
      simp [updateFirst, hx, getTotalQuantity_cons, ih h]
      ring

theorem find?_updateFirst_self {items : List CartItem} {pizzaId : String}
    {a : CartItem} (h : items.find? (fun i => i.pizzaId == pizzaId) = some a)
    (f : Int → Int) :
    (updateFirst items pizzaId f).find? (fun i => i.pizzaId == pizzaId) =
      some { a with quantity := f a.quantity } := by
  induction items with
  | nil => simp at h
  | cons x l ih =>
    cases hx : x.pizzaId == pizzaId with
    | true =>
      simp only [List.find?_cons, hx] at h
      cases h
      simp [updateFirst, hx, List.find?_cons]
    | false =>
      simp only [List.find?_cons, hx] at h
      simp only [updateFirst, hx, Bool.false_eq_true, if_false]
      simp [List.find?_cons, hx, ih h]

theorem getItemQuantity_updateFirst {items : List CartItem} {pizzaId : String}
    {a : CartItem} (h : items.find? (fun i => i.pizzaId == pizzaId) = some a)
    (f : Int → Int) :
    getItemQuantity (updateFirst items pizzaId f) pizzaId = f a.quantity := by
  simp [getItemQuantity, find?_updateFirst_self h f]

theorem mem_updateFirst {items : List CartItem} {pizzaId : String}
    {a x : CartItem} (h : items.find? (fun i => i.pizzaId == pizzaId) = some a)
    (f : Int → Int) (hx : x ∈ updateFirst items pizzaId f) :
    x ∈ items ∨ x = { a with quantity := f a.quantity } := by
  induction items with
  | nil => simp [updateFirst] at hx
  | cons y l ih =>
    cases hy : y.pizzaId == pizzaId with
    | true =>
      simp only [List.find?_cons, hy] at h
      cases h
      simp only [updateFirst, hy, if_true, List.mem_cons] at hx
      rcases hx with hx | hx
      · exact Or.inr hx
      · exact Or.inl (List.mem_cons_of_mem _ hx)
    | false =>
      simp only [List.find?_cons, hy] at h
      simp only [updateFirst, hy, Bool.false_eq_true, if_false, List.mem_cons] at hx
      rcases hx with hx | hx
      · exact Or.inl (hx ▸ List.mem_cons_self _ _)
      · rcases ih h hx with h' | h'
        · exact Or.inl (List.mem_cons_of_mem _ h')
        · exact Or.inr h'

theorem updateFirst_of_find?_eq_none {items : List CartItem} {pizzaId : String}
    (h : items.find? (fun i => i.pizzaId == pizzaId) = none) (f : Int → Int) :
    updateFirst items pizzaId f = items := by
  induction items with
  | nil => rfl
  | cons x l ih =>
    cases hx : x.pizzaId == pizzaId with
    | true => simp only [List.find?_cons, hx] at h; exact absurd h (by simp)
    | false =>
      simp only [List.find?_cons, hx] at h
      simp [updateFirst, hx, ih h]

/-! ## Lemmas about filtering the cart -/

theorem getTotalQuantity_filter_le {items : List CartItem}
    (h : ∀ i ∈ items, 0 ≤ i.quantity) (p : CartItem → Bool) :
    getTotalQuantity (items.filter p) ≤ getTotalQuantity items := by
  induction items with
  | nil => simp
  | cons x l ih =>
    have hx : 0 ≤ x.quantity := h x (List.mem_cons_self _ _)
    have hl : ∀ i ∈ l, 0 ≤ i.quantity := fun i hi => h i (List.mem_cons_of_mem _ hi)
    rw [List.filter_cons]
    by_cases hp : p x
    · simp only [if_pos hp, getTotalQuantity_cons]
      exact add_le_add_left (ih hl) _
    · simp only [if_neg hp, getTotalQuantity_cons]
      calc getTotalQuantity (l.filter p) ≤ getTotalQuantity l := ih hl
        _ ≤ x.quantity + getTotalQuantity l := by linarith

/-! ## Preservation of the cart invariants by every reducer -/

theorem CartInv_filter {items : List CartItem} (h : CartInv items)
    (p : CartItem → Bool) : CartInv (items.filter p) := by
  obtain ⟨hmem, htot⟩ := h
  constructor
  · intro x hx
    exact hmem x (List.mem_filter.mp hx).1
  · exact le_trans
      (getTotalQuantity_filter_le (fun i hi => by linarith [(hmem i hi).1]) p) htot

theorem addToCart_inv {items : List CartItem} (h : CartInv items)
    (pizzaId : String) (quantity : Int) :
    CartInv (addToCart items pizzaId quantity) := by
  obtain ⟨hmem, htot⟩ := h
  simp only [addToCart]
  set A := min quantity (min (MAX_QUANTITY_PER_ITEM - getItemQuantity items pizzaId)
    (MAX_TOTAL_ITEMS - getTotalQuantity items)) with hA
  have hA1 : A ≤ MAX_QUANTITY_PER_ITEM - getItemQuantity items pizzaId :=
    le_trans (min_le_right _ _) (min_le_left _ _)
  have hA2 : A ≤ MAX_TOTAL_ITEMS - getTotalQuantity items :=
    le_trans (min_le_right _ _) (min_le_right _ _)
  by_cases hq : A ≤ 0
  · simp only [if_pos hq]
    exact ⟨hmem, htot⟩
  · simp only [if_neg hq]
    push_neg at hq
    cases hfind : items.find? (fun i => i.pizzaId == pizzaId) with
    | none =>
      have hcur : getItemQuantity items pizzaId = 0 :=
        getItemQuantity_of_find?_eq_none hfind
      rw [hcur] at hA1
      constructor
      · intro x hx
        rcases List.mem_append.mp hx with hx | hx
        · exact hmem x hx
        · simp only [List.mem_singleton] at hx
          subst hx
          simp only [MAX_QUANTITY_PER_ITEM] at *
          omega
      · rw [getTotalQuantity_append, getTotalQuantity_cons, getTotalQuantity_nil]
        simp only [MAX_TOTAL_ITEMS] at *
        omega
    | some a =>
      have hcur : getItemQuantity items pizzaId = a.quantity :=
        getItemQuantity_of_find?_eq_some hfind
      have ha := hmem a (mem_of_find?_eq_some hfind)
      rw [hcur] at hA1
      constructor
      · intro x hx
        rcases mem_updateFirst hfind _ hx with hx | hx
        · exact hmem x hx
        · subst hx
          simp only [MAX_QUANTITY_PER_ITEM] at *
          constructor <;> omega
      · rw [getTotalQuantity_updateFirst hfind]
        simp only [MAX_TOTAL_ITEMS] at *
        omega

theorem removeFromCart_inv {items : List CartItem} (h : CartInv items)
    (pizzaId : String) : CartInv (removeFromCart items pizzaId) :=
  CartInv_filter h _

theorem updateQuantity_inv {items : List CartItem} (h : CartInv items)
    (pizzaId : String) (quantity : Int) :
    CartInv (updateQuantity items pizzaId quantity) := by
  obtain ⟨hmem, htot⟩ := h
  simp only [updateQuantity]
  cases hfind : items.find? (fun i => i.pizzaId == pizzaId) with
  | none => exact ⟨hmem, htot⟩
  | some a =>
    have ha := hmem a (mem_of_find?_eq_some hfind)
    by_cases hq : quantity ≤ 0
    · simp only [if_pos hq]
      exact CartInv_filter ⟨hmem, htot⟩ _
    · simp only [if_neg hq]
      push_neg at hq
      set newQ := if 0 < quantity - a.quantity then
          min (a.quantity + min (quantity - a.quantity)
            (MAX_TOTAL_ITEMS - getTotalQuantity items)) MAX_QUANTITY_PER_ITEM
        else min quantity MAX_QUANTITY_PER_ITEM with hnewQ
      have hbounds : 1 ≤ newQ ∧ newQ ≤ MAX_QUANTITY_PER_ITEM ∧
          getTotalQuantity items - a.quantity + newQ ≤ MAX_TOTAL_ITEMS := by
        rw [hnewQ]
        simp only [MAX_QUANTITY_PER_ITEM, MAX_TOTAL_ITEMS] at *
        split <;> omega
      constructor
      · intro x hx
        rcases mem_updateFirst hfind _ hx with hx | hx
        · exact hmem x hx
        · subst hx
          exact ⟨hbounds.1, hbounds.2.1⟩
      · rw [getTotalQuantity_updateFirst hfind]
        exact hbounds.2.2

theorem incrementQuantity_inv {items : List CartItem} (h : CartInv items)
    (pizzaId : String) : CartInv (incrementQuantity items pizzaId) := by
  obtain ⟨hmem, htot⟩ := h
  simp only [incrementQuantity]
  cases hfind : items.find? (fun i => i.pizzaId == pizzaId) with
  | none => exact ⟨hmem, htot⟩
  | some a =>
    have ha := hmem a (mem_of_find?_eq_some hfind)
    by_cases hc : a.quantity < MAX_QUANTITY_PER_ITEM ∧
        getTotalQuantity items < MAX_TOTAL_ITEMS
    · simp only [if_pos hc]
      constructor
      · intro x hx
        rcases mem_updateFirst hfind _ hx with hx | hx
        · exact hmem x hx
        · subst hx
          simp only [MAX_QUANTITY_PER_ITEM] at *
          constructor <;> omega
      · rw [getTotalQuantity_updateFirst hfind]
        simp only [MAX_TOTAL_ITEMS] at *
        omega
    · simp only [if_neg hc]
      exact ⟨hmem, htot⟩

theorem decrementQuantity_inv {items : List CartItem} (h : CartInv items)
    (pizzaId : String) : CartInv (decrementQuantity items pizzaId) := by
  obtain ⟨hmem, htot⟩ := h
  simp only [decrementQuantity]
  cases hfind : items.find? (fun i => i.pizzaId == pizzaId) with
  | none => exact ⟨hmem, htot⟩
  | some a =>
    have ha := hmem a (mem_of_find?_eq_some hfind)
    by_cases hc : a.quantity ≤ 1
    · simp only [if_pos hc]
      exact CartInv_filter ⟨hmem, htot⟩ _
    · simp only [if_neg hc]
      constructor
      · intro x hx
        rcases mem_updateFirst hfind _ hx with hx | hx
        · exact hmem x hx
        · subst hx
          simp only [MAX_QUANTITY_PER_ITEM] at *
          constructor <;> omega
      · rw [getTotalQuantity_updateFirst hfind]
        simp only [MAX_TOTAL_ITEMS] at *
        omega

theorem clearCart_inv (items : List CartItem) : CartInv (clearCart items) := by
  constructor
  · intro x hx
    simp [clearCart] at hx
  · simp [clearCart, getTotalQuantity_nil, MAX_TOTAL_ITEMS]

theorem applyOp_inv {items : List CartItem} (h : CartInv items) (op : CartOp) :
    CartInv (applyOp items op) := by
  cases op with
  | add pizzaId quantity => exact addToCart_inv h pizzaId quantity
  | update pizzaId quantity => exact updateQuantity_inv h pizzaId quantity
  | increment pizzaId => exact incrementQuantity_inv h pizzaId
  | decrement pizzaId => exact decrementQuantity_inv h pizzaId
  | remove pizzaId => exact removeFromCart_inv h pizzaId
  | clear => exact clearCart_inv items

theorem applyOps_inv {items : List CartItem} (h : CartInv items)
    (ops : List CartOp) : CartInv (applyOps ops items) := by
  induction ops generalizing items with
  | nil => exact h
  | cons op ops ih => exact ih (applyOp_inv h op)

theorem CartInv_nil : CartInv [] := by
  constructor
  · intro x hx
    simp at hx
  · simp [getTotalQuantity_nil, MAX_TOTAL_ITEMS]

/-! ## Characterization of `addToCart` -/

/-- The `quantityToAdd` computed inside the `addToCart` reducer. -/
def clampAdd (items : List CartItem) (pizzaId : String) (quantity : Int) : Int :=
  min quantity (min (MAX_QUANTITY_PER_ITEM - getItemQuantity items pizzaId)
    (MAX_TOTAL_ITEMS - getTotalQuantity items))

theorem addToCart_eq_of_nonpos {items : List CartItem} {pizzaId : String}
    {quantity : Int} (h : clampAdd items pizzaId quantity ≤ 0) :
    addToCart items pizzaId quantity = items := by
  unfold clampAdd at h
  simp only [addToCart]
  rw [if_pos h]

theorem addToCart_eq_update {items : List CartItem} {pizzaId : String}
    {quantity : Int} {a : CartItem}
    (hfind : items.find? (fun i => i.pizzaId == pizzaId) = some a)
    (hpos : 0 < clampAdd items pizzaId quantity) :
    addToCart items pizzaId quantity =
      updateFirst items pizzaId (fun q => q + clampAdd items pizzaId quantity) := by
  unfold clampAdd at *
  simp only [addToCart]
  rw [if_neg (by omega), hfind]

theorem addToCart_eq_append {items : List CartItem} {pizzaId : String}
    {quantity : Int}
    (hfind : items.find? (fun i => i.pizzaId == pizzaId) = none)
    (hpos : 0 < clampAdd items pizzaId quantity) :
    addToCart items pizzaId quantity =
      items ++ [⟨pizzaId, clampAdd items pizzaId quantity⟩] := by
  unfold clampAdd at *
  simp only [addToCart]
  rw [if_neg (by omega), hfind]

theorem getItemQuantity_append_self {items : List CartItem} {pizzaId : String}
    (hfind : items.find? (fun i => i.pizzaId == pizzaId) = none) (q : Int) :
    getItemQuantity (items ++ [⟨pizzaId, q⟩]) pizzaId = q := by
  simp [getItemQuantity, List.find?_append, hfind, List.find?_cons]

/-! ## Claim theorems -/

/-- **C1**: starting from the empty cart, after every finite sequence of the
cart operations `addToCart`, `updateQuantity`, `incrementQuantity`,
`decrementQuantity`, `removeFromCart` and `clearCart` (with arbitrary
arguments), every line present in the cart has quantity at least 1 and at
most 25, and the sum of the quantities of all lines is at most 50. -/
theorem cart_invariants_hold_after_every_op_sequence (ops : List CartOp) :
    (∀ item ∈ applyOps ops [], 1 ≤ item.quantity ∧ item.quantity ≤ 25) ∧
      getTotalQuantity (applyOps ops []) ≤ 50 :=
  applyOps_inv CartInv_nil ops

/-- **C9**: for every cart state and every `itemId`, applying
`removeFromCart itemId` twice in a row yields exactly the same cart state as
applying it once. -/
theorem removeFromCart_idempotent (items : List CartItem) (pizzaId : String) :
    removeFromCart (removeFromCart items pizzaId) pizzaId =
      removeFromCart items pizzaId := by
  simp [removeFromCart, List.filter_filter]

/-- **C10**: for every cart state and every `pizzaId` that has no line in
the cart, `updateQuantity` (for any quantity), `incrementQuantity` and
`decrementQuantity` each leave the entire cart state unchanged; in
particular none of them ever creates a new line. -/
theorem ops_on_absent_line_are_noops (items : List CartItem) (pizzaId : String)
    (q : Int) (habs : ∀ item ∈ items, item.pizzaId ≠ pizzaId) :
    updateQuantity items pizzaId q = items ∧
      incrementQuantity items pizzaId = items ∧
      decrementQuantity items pizzaId = items := by
  have hfind : items.find? (fun i => i.pizzaId == pizzaId) = none := by
    rw [List.find?_eq_none]
    intro x hx
    simpa using habs x hx
  refine ⟨?_, ?_, ?_⟩ <;>
    simp [updateQuantity, incrementQuantity, decrementQuantity, hfind]

/-- Witness for `ops_on_absent_line_are_noops` at a concrete cart. -/
theorem ops_on_absent_line_are_noops_witness :
    updateQuantity [⟨"a", 2⟩] "b" 7 = [⟨"a", 2⟩] ∧
      incrementQuantity [⟨"a", 2⟩] "b" = [⟨"a", 2⟩] ∧
      decrementQuantity [⟨"a", 2⟩] "b" = [⟨"a", 2⟩] :=
  ops_on_absent_line_are_noops [⟨"a", 2⟩] "b" 7 (by decide)

/-- `addToCart` changes the line quantity and the aggregate total by exactly
the clamped amount, is a no-op when that amount is 0, and appends a fresh
line when the item was absent. -/
theorem addToCart_effect (items : List CartItem) (pizzaId : String)
    (quantity : Int) :
    getItemQuantity (addToCart items pizzaId quantity) pizzaId =
        getItemQuantity items pizzaId + max 0 (clampAdd items pizzaId quantity) ∧
      getTotalQuantity (addToCart items pizzaId quantity) =
        getTotalQuantity items + max 0 (clampAdd items pizzaId quantity) ∧
      (max 0 (clampAdd items pizzaId quantity) = 0 →
        addToCart items pizzaId quantity = items) ∧
      (quantity ≤ 0 → addToCart items pizzaId quantity = items) ∧
      (items.find? (fun i => i.pizzaId == pizzaId) = none →
        0 < clampAdd items pizzaId quantity →
        addToCart items pizzaId quantity =
          items ++ [⟨pizzaId, max 0 (clampAdd items pizzaId quantity)⟩]) := by
  have hqle : clampAdd items pizzaId quantity ≤ quantity := by
    unfold clampAdd
    exact min_le_left _ _
  by_cases hM : clampAdd items pizzaId quantity ≤ 0
  · have hA0 : max 0 (clampAdd items pizzaId quantity) = 0 := by omega
    have heq := addToCart_eq_of_nonpos hM
    refine ⟨by rw [heq, hA0, add_zero], by rw [heq, hA0, add_zero],
      fun _ => heq, fun _ => heq, ?_⟩
    intro _ hpos
    exact absurd hpos (by omega)
  · push_neg at hM
    have hAM : max 0 (clampAdd items pizzaId quantity) =
        clampAdd items pizzaId quantity := by omega
    cases hfind : items.find? (fun i => i.pizzaId == pizzaId) with
    | some a =>
      have heq := addToCart_eq_update hfind hM
      have hcur := getItemQuantity_of_find?_eq_some hfind
      refine ⟨?_, ?_, ?_, ?_, ?_⟩
      · rw [heq, getItemQuantity_updateFirst hfind, hAM, hcur]
      · rw [heq, getTotalQuantity_updateFirst hfind, hAM]
        ring
      · intro h0
        exact absurd h0 (by omega)
      · intro hq0
        exact absurd hM (by omega)
      · intro hfn
        exact absurd hfn (by simp)
    | none =>
      have heq := addToCart_eq_append hfind hM
      have hcur := getItemQuantity_of_find?_eq_none hfind
      refine ⟨?_, ?_, ?_, ?_, ?_⟩
      · rw [heq, getItemQuantity_append_self hfind, hAM, hcur, zero_add]
      · rw [heq, getTotalQuantity_append, getTotalQuantity_cons,
          getTotalQuantity_nil, hAM]
        ring
      · intro h0
        exact absurd h0 (by omega)
      · intro hq0
        exact absurd hM (by omega)
      · intro _ _
        rw [hAM]
        exact heq

/-- **C5**: for every cart state satisfying the cap invariants,
`addToCart pizzaId requestedQty` increases that item's line quantity (and the
aggregate total) by exactly
`max 0 (min requestedQty (min (25 − currentQty) (50 − currentTotal)))`,
creating the line if absent and the amount is positive, and leaving the whole
cart state unchanged when the amount is 0 (including every
`requestedQty ≤ 0`); in particular `addToCart pizzaId 1000` on an empty cart
yields a line with quantity exactly 25, and `addToCart pizzaId 10` on a cart
holding 48 total units with no line for `pizzaId` appends a new line with
quantity exactly 2 and aggregate total exactly 50. -/
theorem addToCart_clamped_effect (items : List CartItem) (pizzaId : String)
    (quantity : Int) (h : CartInv items) :
    getItemQuantity (addToCart items pizzaId quantity) pizzaId =
        getItemQuantity items pizzaId + max 0 (clampAdd items pizzaId quantity) ∧
      getTotalQuantity (addToCart items pizzaId quantity) =
        getTotalQuantity items + max 0 (clampAdd items pizzaId quantity) ∧
      (max 0 (clampAdd items pizzaId quantity) = 0 →
        addToCart items pizzaId quantity = items) ∧
      (quantity ≤ 0 → addToCart items pizzaId quantity = items) ∧
      (items.find? (fun i => i.pizzaId == pizzaId) = none →
        0 < clampAdd items pizzaId quantity →
        addToCart items pizzaId quantity =
          items ++ [⟨pizzaId, max 0 (clampAdd items pizzaId quantity)⟩]) ∧
      addToCart [] pizzaId 1000 = [⟨pizzaId, 25⟩] ∧
      (getTotalQuantity items = 48 →
        items.find? (fun i => i.pizzaId == pizzaId) = none →
        addToCart items pizzaId 10 = items ++ [⟨pizzaId, 2⟩] ∧
          getItemQuantity (addToCart items pizzaId 10) pizzaId = 2 ∧
          getTotalQuantity (addToCart items pizzaId 10) = 50) := by
  clear h
  obtain ⟨ha, hb, hc, hd, he⟩ := addToCart_effect items pizzaId quantity
  have scenario1 : addToCart [] pizzaId 1000 = [⟨pizzaId, 25⟩] := by
    have hca : clampAdd [] pizzaId 1000 = 25 := by
      simp only [clampAdd, getItemQuantity, getTotalQuantity, List.find?_nil,
        List.foldl_nil, MAX_QUANTITY_PER_ITEM, MAX_TOTAL_ITEMS]
      omega
    rw [addToCart_eq_append List.find?_nil (by rw [hca]; norm_num), hca]
    rfl
  have scenario2 : getTotalQuantity items = 48 →
      items.find? (fun i => i.pizzaId == pizzaId) = none →
      addToCart items pizzaId 10 = items ++ [⟨pizzaId, 2⟩] ∧
        getItemQuantity (addToCart items pizzaId 10) pizzaId = 2 ∧
        getTotalQuantity (addToCart items pizzaId 10) = 50 := by
    intro h48 hfn
    have hca : clampAdd items pizzaId 10 = 2 := by
      simp only [clampAdd, getItemQuantity_of_find?_eq_none hfn, h48,
        MAX_QUANTITY_PER_ITEM, MAX_TOTAL_ITEMS]
      omega
    have heq : addToCart items pizzaId 10 = items ++ [⟨pizzaId, 2⟩] := by
      rw [addToCart_eq_append hfn (by rw [hca]; norm_num), hca]
    refine ⟨heq, ?_, ?_⟩
    · rw [heq, getItemQuantity_append_self hfn]
    · rw [heq, getTotalQuantity_append, h48, getTotalQuantity_cons,
        getTotalQuantity_nil]
      norm_num
  exact ⟨ha, hb, hc, hd, he, scenario1, scenario2⟩

/-- Witness for `addToCart_clamped_effect`: the aggregate-clamp scenario at a
concrete cart holding 48 units. -/
theorem addToCart_clamped_effect_witness :
    addToCart [⟨"x", 25⟩, ⟨"y", 23⟩] "a" 10 =
        [⟨"x", 25⟩, ⟨"y", 23⟩, ⟨"a", 2⟩] ∧
      getTotalQuantity (addToCart [⟨"x", 25⟩, ⟨"y", 23⟩] "a" 10) = 50 := by
  obtain ⟨-, -, -, -, -, -, hsc⟩ :=
    addToCart_clamped_effect [⟨"x", 25⟩, ⟨"y", 23⟩] "a" 10 (by decide)
  obtain ⟨h1, -, h3⟩ := hsc (by decide) (by decide)
  exact ⟨h1, h3⟩

/-- **C6**: for every cart state satisfying the cap invariants and every
existing line for `pizzaId` with current quantity `a.quantity`,
`updateQuantity` removes the line when `newQty ≤ 0`; otherwise it sets the
quantity to `min newQty 25` when `newQty ≤ currentQty` (decreases never
further clamped), and to
`min (currentQty + min (newQty − currentQty) (50 − currentTotal)) 25` when
`newQty > currentQty`. -/
theorem updateQuantity_set_semantics (items : List CartItem) (pizzaId : String)
    (newQty : Int) (a : CartItem) (h : CartInv items)
    (hfind : items.find? (fun i => i.pizzaId == pizzaId) = some a) :
    (newQty ≤ 0 → updateQuantity items pizzaId newQty =
        items.filter (fun i => i.pizzaId != pizzaId)) ∧
      (0 < newQty → newQty ≤ a.quantity →
        updateQuantity items pizzaId newQty =
          updateFirst items pizzaId (fun _ => min newQty 25)) ∧
      (a.quantity < newQty →
        updateQuantity items pizzaId newQty =
          updateFirst items pizzaId (fun _ =>
            min (a.quantity + min (newQty - a.quantity)
              (50 - getTotalQuantity items)) 25)) := by
  have ha : 1 ≤ a.quantity := (h.1 a (mem_of_find?_eq_some hfind)).1
  refine ⟨?_, ?_, ?_⟩
  · intro h0
    simp only [updateQuantity, hfind]
    rw [if_pos h0]
  · intro hpos hle
    simp only [updateQuantity, hfind]
    rw [if_neg (by omega), if_neg (by omega)]
    rfl
  · intro hgt
    simp only [updateQuantity, hfind]
    rw [if_neg (by omega), if_pos (by omega)]
    rfl

/-- Witness for `updateQuantity_set_semantics`: removal, plain decrease and
per-item-clamped increase at a concrete one-line cart. -/
theorem updateQuantity_set_semantics_witness :
    updateQuantity [⟨"a", 5⟩] "a" 0 = [] ∧
      updateQuantity [⟨"a", 5⟩] "a" 4 = [⟨"a", 4⟩] ∧
      updateQuantity [⟨"a", 5⟩] "a" 30 = [⟨"a", 25⟩] := by
  have h1 := (updateQuantity_set_semantics [⟨"a", 5⟩] "a" 0 ⟨"a", 5⟩
    (by decide) (by decide)).1 (by norm_num)
  have h2 := (updateQuantity_set_semantics [⟨"a", 5⟩] "a" 4 ⟨"a", 5⟩
    (by decide) (by decide)).2.1 (by norm_num) (by norm_num)
  have h3 := (updateQuantity_set_semantics [⟨"a", 5⟩] "a" 30 ⟨"a", 5⟩
    (by decide) (by decide)).2.2 (by norm_num)
  refine ⟨?_, ?_, ?_⟩
  · rw [h1]
    decide
  · rw [h2]
    decide
  · rw [h3]
    decide

/-! ## Pricing derivation lemmas -/

/-- A catalog entry with the given id and unit price (the remaining fields
are irrelevant to pricing). -/
def mkPizza (id : String) (price : ℚ) : Pizza :=
  { id := id, name := "n", description := "d", price := price,
    category := .classic, ingredients := [], imageUrl := "u",
    isVegetarian := false, isSpicy := false, rating := 0, prepTime := 0 }

theorem foldl_add_eq_sum_map (f : OrderItem → ℚ) (l : List OrderItem) :
    l.foldl (fun sum i => sum + f i) 0 = (l.map f).sum := by
  suffices h : ∀ s, l.foldl (fun sum i => sum + f i) s = s + (l.map f).sum by
    simpa using h 0
  induction l with
  | nil => simp
  | cons x l ih =>
    intro s
    simp only [List.foldl_cons, List.map_cons, List.sum_cons, ih]
    ring

/-- Every line produced by `selectCartWithDetails` carries exactly the
per-line prices computed by the selector (full precision, no per-line
rounding). -/
theorem mem_selectCartWithDetails {cartItems : List CartItem}
    {pizzas : List Pizza} {l : OrderItem}
    (hl : l ∈ selectCartWithDetails cartItems pizzas) :
    l.originalPrice = l.pizza.price * (l.quantity : ℚ) ∧
      l.discountAmount = (if DISCOUNT_THRESHOLD ≤ l.quantity then
        l.originalPrice * DISCOUNT_PERCENTAGE else 0) ∧
      l.finalPrice = l.originalPrice - l.discountAmount ∧
      l.pizza ∈ pizzas := by
  rw [selectCartWithDetails, List.mem_filterMap] at hl
  obtain ⟨c, _, hfc⟩ := hl
  rcases hfp : pizzas.find? (fun p => p.id == c.pizzaId) with _ | pizza
  · rw [hfp] at hfc
    simp at hfc
  · rw [hfp] at hfc
    simp only [Option.some.injEq] at hfc
    subst hfc
    refine ⟨rfl, ?_, rfl, List.mem_of_find?_eq_some hfp⟩
    by_cases hq : DISCOUNT_THRESHOLD ≤ c.quantity
    · simp [hq]
    · simp [hq]

theorem sum_finalPrice_eq (items : List OrderItem)
    (h : ∀ l ∈ items, l.finalPrice = l.originalPrice - l.discountAmount) :
    (items.map (fun i => i.finalPrice)).sum =
      (items.map (fun i => i.originalPrice)).sum -
        (items.map (fun i => i.discountAmount)).sum := by
  induction items with
  | nil => simp
  | cons x l ih =>
    simp only [List.map_cons, List.sum_cons,
      h x (List.mem_cons_self _ _), ih (fun i hi => h i (List.mem_cons_of_mem _ hi))]
    ring

/-- **C2 (counterexample)**: with a one-pizza catalog at unit price $10.05
and a cart holding 3 of it, the raw sums are subtotal 30.15, discount 3.015
and total 27.135; rounding each independently (half up) gives 30.15, 3.02
and 27.14, and 27.14 ≠ 30.15 − 3.02 — the stored aggregates violate
`total = subtotal − totalDiscount`. -/
theorem selectCartTotals_difference_counterexample :
    (selectCartTotals (selectCartWithDetails [⟨"a", 3⟩] [mkPizza "a" (201/20)])) =
        { subtotal := 3015/100, totalDiscount := 302/100, total := 2714/100 } ∧
      (2714/100 : ℚ) ≠ 3015/100 - 302/100 := by
  constructor
  · simp only [selectCartTotals, selectCartWithDetails, mkPizza, round2, jsRound,
      DISCOUNT_THRESHOLD, DISCOUNT_PERCENTAGE, List.filterMap_cons, List.find?_cons]
    norm_num
  · norm_num

/-- **C2 (amended)**: each aggregate of `selectCartTotals` equals the
round-half-up-to-2-decimals of the corresponding sum of per-line values over
all retained lines, and the identity `total = subtotal − totalDiscount`
holds on the raw sums, before the independent rounding (but not, in general,
between the three rounded aggregates). -/
theorem selectCartTotals_rounded_sums (cartItems : List CartItem)
    (pizzas : List Pizza) :
    (selectCartTotals (selectCartWithDetails cartItems pizzas)).subtotal =
        round2 (((selectCartWithDetails cartItems pizzas).map
          (fun i => i.originalPrice)).sum) ∧
      (selectCartTotals (selectCartWithDetails cartItems pizzas)).totalDiscount =
        round2 (((selectCartWithDetails cartItems pizzas).map
          (fun i => i.discountAmount)).sum) ∧
      (selectCartTotals (selectCartWithDetails cartItems pizzas)).total =
        round2 (((selectCartWithDetails cartItems pizzas).map
          (fun i => i.finalPrice)).sum) ∧
      ((selectCartWithDetails cartItems pizzas).map (fun i => i.finalPrice)).sum =
        ((selectCartWithDetails cartItems pizzas).map (fun i => i.originalPrice)).sum -
          ((selectCartWithDetails cartItems pizzas).map (fun i => i.discountAmount)).sum := by
  have hsum : ((selectCartWithDetails cartItems pizzas).map (fun i => i.finalPrice)).sum =
      ((selectCartWithDetails cartItems pizzas).map (fun i => i.originalPrice)).sum -
        ((selectCartWithDetails cartItems pizzas).map (fun i => i.discountAmount)).sum :=
    sum_finalPrice_eq _ (fun l hl => (mem_selectCartWithDetails hl).2.2.1)
  refine ⟨?_, ?_, ?_, hsum⟩
  · simp only [selectCartTotals, foldl_add_eq_sum_map]
  · simp only [selectCartTotals, foldl_add_eq_sum_map]
  · simp only [selectCartTotals, foldl_add_eq_sum_map, hsum]

/-- **C3 (counterexample)**: for the cart line of 3 pizzas at unit price
1/100, the derived discount is 3/1000, but `round2 (p·q·0.10)` is 0 — the
per-line discount is kept at full precision, not rounded to 2 decimals. -/
theorem per_line_discount_not_rounded_counterexample :
    (selectCartWithDetails [⟨"a", 3⟩] [mkPizza "a" (1/100)]).map
        (fun l => l.discountAmount) = [3/1000] ∧
      round2 ((1/100 : ℚ) * (3 : Int) * DISCOUNT_PERCENTAGE) = 0 ∧
      (3/1000 : ℚ) ≠ 0 := by
  refine ⟨?_, ?_, by norm_num⟩
  · simp only [selectCartWithDetails, mkPizza, DISCOUNT_THRESHOLD,
      DISCOUNT_PERCENTAGE, List.filterMap_cons, List.find?_cons]
    norm_num
  · simp only [round2, jsRound, DISCOUNT_PERCENTAGE]
    norm_num

/-- **C3 (amended)**: for every derived order line from a cart line with
unit price `p` and quantity `q`, the discount equals exactly `p·q·0.10`
(unrounded) when `q ≥ 3` and exactly 0 when `q < 3`, and the final price
equals `p·q − discount`, exactly. -/
theorem per_line_discount_exact (cartItems : List CartItem)
    (pizzas : List Pizza) (l : OrderItem)
    (hl : l ∈ selectCartWithDetails cartItems pizzas) :
    l.originalPrice = l.pizza.price * (l.quantity : ℚ) ∧
      l.discountAmount = (if 3 ≤ l.quantity then
        l.pizza.price * (l.quantity : ℚ) * (1/10) else 0) ∧
      l.finalPrice = l.pizza.price * (l.quantity : ℚ) - l.discountAmount := by
  obtain ⟨h1, h2, h3, _⟩ := mem_selectCartWithDetails hl
  refine ⟨h1, ?_, by rw [h3, h1]⟩
  rw [h2, h1]
  rfl

/-- Witness for `per_line_discount_exact`: the specification's own scenario
(3 pizzas at unit price 10 give a 3.00 discount and a 27.00 final price). -/
theorem per_line_discount_exact_witness :
    (⟨mkPizza "a" 10, 3, 30, 3, 27⟩ : OrderItem).discountAmount =
        (mkPizza "a" 10).price * ((3 : Int) : ℚ) * (1/10) ∧
      (⟨mkPizza "a" 10, 3, 30, 3, 27⟩ : OrderItem).finalPrice =
        (mkPizza "a" 10).price * ((3 : Int) : ℚ) -
          (⟨mkPizza "a" 10, 3, 30, 3, 27⟩ : OrderItem).discountAmount := by
  have hline : selectCartWithDetails [⟨"a", 3⟩] [mkPizza "a" 10] =
      [⟨mkPizza "a" 10, 3, 30, 3, 27⟩] := by
    simp only [selectCartWithDetails, mkPizza, DISCOUNT_THRESHOLD,
      DISCOUNT_PERCENTAGE, List.filterMap_cons, List.find?_cons]
    norm_num
  have h := per_line_discount_exact [⟨"a", 3⟩] [mkPizza "a" 10]
    ⟨mkPizza "a" 10, 3, 30, 3, 27⟩ (by rw [hline]; exact List.mem_singleton_self _)
  refine ⟨?_, h.2.2⟩
  rw [h.2.1, if_pos (by decide)]

/-- **C4 (counterexample)**: with a catalog whose only unit price is 0 (a
non-negative decimal) and a cart line of quantity 3, the derived line has
quantity ≥ 3 but a discount of exactly 0 — refuting "discount is non-zero
iff quantity ≥ 3". -/
theorem discount_nonzero_iff_counterexample :
    (selectCartWithDetails [⟨"a", 3⟩] [mkPizza "a" 0]).map
        (fun l => (l.quantity, l.discountAmount)) = [((3 : Int), (0 : ℚ))] ∧
      (0 : ℚ) ≤ (mkPizza "a" 0).price := by
  constructor
  · simp only [selectCartWithDetails, mkPizza, DISCOUNT_THRESHOLD,
      DISCOUNT_PERCENTAGE, List.filterMap_cons, List.find?_cons]
    norm_num
  · simp [mkPizza]

/-- **C4 (amended)**: over any catalog with non-negative unit prices, a
derived line's discount is non-zero iff its quantity is ≥ 3 *and* its
pre-discount price is non-zero; whenever the quantity is ≥ 3 the discount
equals exactly 10% of the pre-discount price. -/
theorem discount_nonzero_iff (cartItems : List CartItem) (pizzas : List Pizza)
    (hprice : ∀ p ∈ pizzas, 0 ≤ p.price) (l : OrderItem)
    (hl : l ∈ selectCartWithDetails cartItems pizzas) :
    (l.discountAmount ≠ 0 ↔ (3 ≤ l.quantity ∧ l.originalPrice ≠ 0)) ∧
      (3 ≤ l.quantity → l.discountAmount = l.originalPrice * (1/10)) := by
  clear hprice
  obtain ⟨h1, h2, h3, _⟩ := mem_selectCartWithDetails hl
  have hthr : DISCOUNT_THRESHOLD = (3 : Int) := rfl
  have hpct : DISCOUNT_PERCENTAGE = (1/10 : ℚ) := rfl
  constructor
  · rw [h2, hthr, hpct]
    by_cases hq : (3 : Int) ≤ l.quantity
    · rw [if_pos hq]
      constructor
      · intro hne
        refine ⟨hq, fun h0 => hne ?_⟩
        rw [h0, zero_mul]
      · rintro ⟨-, hne⟩ hmul
        rcases mul_eq_zero.mp hmul with h0 | h0
        · exact hne h0
        · norm_num at h0
    · rw [if_neg hq]
      simp [hq]
  · intro hq
    rw [h2, hthr, hpct, if_pos hq]

/-- Witness for `discount_nonzero_iff` at a concrete positive-price line. -/
theorem discount_nonzero_iff_witness :
    (⟨mkPizza "a" 10, 3, 30, 3, 27⟩ : OrderItem).discountAmount ≠ 0 := by
  have hline : selectCartWithDetails [⟨"a", 3⟩] [mkPizza "a" 10] =
      [⟨mkPizza "a" 10, 3, 30, 3, 27⟩] := by
    simp only [selectCartWithDetails, mkPizza, DISCOUNT_THRESHOLD,
      DISCOUNT_PERCENTAGE, List.filterMap_cons, List.find?_cons]
    norm_num
  have h := discount_nonzero_iff [⟨"a", 3⟩] [mkPizza "a" 10]
    (by intro p hp; simp only [List.mem_singleton] at hp; subst hp; simp [mkPizza])
    ⟨mkPizza "a" 10, 3, 30, 3, 27⟩ (by rw [hline]; exact List.mem_singleton_self _)
  exact h.1.mpr ⟨by norm_num, by norm_num⟩

/-! ## Order confirmation -/

/-- **C7 (counterexample)**: a cart whose only line references a pizza
missing from the catalog is *not* empty, yet `handleConfirmOrder` rejects it
(the derived line list is empty), leaving cart and order log unchanged — so
"rejected iff the cart is empty" fails in the desync case. -/
theorem handleConfirmOrder_desync_counterexample :
    handleConfirmOrder "id1" "t1" [⟨"ghost", 2⟩] [] ⟨[], none, false⟩ =
        ([⟨"ghost", 2⟩], ⟨[], none, false⟩, none) ∧
      ([⟨"ghost", 2⟩] : List CartItem) ≠ [] := by
  constructor
  · rfl
  · simp

/-- **C7 (amended)**: `handleConfirmOrder` rejects exactly when the derived
order-line list is empty (which, whenever every cart line resolves in the
catalog, coincides with the cart being empty); on rejection the cart and the
order log are unchanged, and on a non-empty derived list it appends exactly
one new `Order` — carrying the given fresh id, the given timestamp, status
`confirmed`, and the derived lines and rounded aggregate totals of the cart
at confirmation time, by value — and then empties the cart. -/
theorem handleConfirmOrder_spec (newId now : String) (cart : List CartItem)
    (pizzas : List Pizza) (os : OrderState) :
    (selectCartWithDetails cart pizzas = [] →
      handleConfirmOrder newId now cart pizzas os = (cart, os, none)) ∧
      (selectCartWithDetails cart pizzas ≠ [] →
        handleConfirmOrder newId now cart pizzas os =
          ([],
           { orders := os.orders ++
               [⟨newId, selectCartWithDetails cart pizzas,
                 (selectCartTotals (selectCartWithDetails cart pizzas)).subtotal,
                 (selectCartTotals (selectCartWithDetails cart pizzas)).totalDiscount,
                 (selectCartTotals (selectCartWithDetails cart pizzas)).total,
                 now, .confirmed⟩],
             currentOrderId := some newId,
             isProcessing := false },
           some ⟨newId, selectCartWithDetails cart pizzas,
             (selectCartTotals (selectCartWithDetails cart pizzas)).subtotal,
             (selectCartTotals (selectCartWithDetails cart pizzas)).totalDiscount,
             (selectCartTotals (selectCartWithDetails cart pizzas)).total,
             now, .confirmed⟩)) := by
  constructor
  · intro hempty
    simp only [handleConfirmOrder, hempty, List.length_nil]
    rfl
  · intro hne
    have hlen : (selectCartWithDetails cart pizzas).length ≠ 0 := by
      simpa [List.length_eq_zero] using hne
    simp only [handleConfirmOrder]
    rw [if_neg hlen]
    rfl

/-- Witness for `handleConfirmOrder_spec`: rejection on the empty cart, and
the confirmed-order log length after a successful confirmation of a
one-line cart. -/
theorem handleConfirmOrder_spec_witness :
    handleConfirmOrder "i" "t" [] [] ⟨[], none, false⟩ =
        ([], ⟨[], none, false⟩, none) ∧
      (handleConfirmOrder "i" "t" [⟨"a", 2⟩] [mkPizza "a" 10]
          ⟨[], none, false⟩).1 = [] ∧
      (handleConfirmOrder "i" "t" [⟨"a", 2⟩] [mkPizza "a" 10]
          ⟨[], none, false⟩).2.1.orders.length = 1 := by
  have hne : selectCartWithDetails [⟨"a", 2⟩] [mkPizza "a" 10] ≠ [] := by
    simp only [selectCartWithDetails, mkPizza, List.filterMap_cons,
      List.find?_cons]
    norm_num
  have h2 := (handleConfirmOrder_spec "i" "t" [⟨"a", 2⟩] [mkPizza "a" 10]
    ⟨[], none, false⟩).2 hne
  refine ⟨(handleConfirmOrder_spec "i" "t" [] [] ⟨[], none, false⟩).1 rfl,
    ?_, ?_⟩
  · rw [h2]
  · rw [h2]
    simp

/-! ## canAdd classification -/

theorem getItemQuantity_bounds {items : List CartItem} (h : CartInv items)
    (pizzaId : String) :
    0 ≤ getItemQuantity items pizzaId ∧
      getItemQuantity items pizzaId ≤ MAX_QUANTITY_PER_ITEM := by
  cases hfind : items.find? (fun i => i.pizzaId == pizzaId) with
  | none =>
    rw [getItemQuantity_of_find?_eq_none hfind]
    exact ⟨le_refl 0, by norm_num [MAX_QUANTITY_PER_ITEM]⟩
  | some a =>
    have ha := h.1 a (mem_of_find?_eq_some hfind)
    rw [getItemQuantity_of_find?_eq_some hfind]
    omega

/-- **C8 (counterexample)**: on the cart holding 25 of pizza "a" (which
satisfies the cap invariants), `selectCanAddToCart "a" 0` has requested
quantity 0 ≤ maxAddable = 0, yet reports limitType `per_item`, not `none` —
refuting "limitType is none exactly when the requested quantity is at most
maxAddable". -/
theorem selectCanAddToCart_counterexample :
    (selectCanAddToCart [⟨"a", 25⟩] "a" 0).limitType = .per_item ∧
      (0 : Int) ≤ min (MAX_QUANTITY_PER_ITEM - getItemQuantity [⟨"a", 25⟩] "a")
        (MAX_TOTAL_ITEMS - getTotalQuantity [⟨"a", 25⟩]) ∧
      CartInv [⟨"a", 25⟩] := by
  refine ⟨by decide, by decide, by decide⟩

/-- **C8 (amended)**: for every cart state satisfying the cap invariants,
`selectCanAddToCart` (a total function, hence it never throws) reports
limitType `none` exactly when `maxAddable > 0` and the requested quantity is
at most `maxAddable = min (25 − currentQty) (50 − currentTotal)`; in every
other case (request exceeding `maxAddable`, or `maxAddable ≤ 0` — even for
requests ≤ 0) it reports `per_item` precisely when
`remainingPerItem ≤ remainingTotal`, else `total`. -/
theorem selectCanAddToCart_classification (items : List CartItem)
    (pizzaId : String) (quantity : Int) (h : CartInv items) :
    ((selectCanAddToCart items pizzaId quantity).limitType = .none ↔
        (0 < min (MAX_QUANTITY_PER_ITEM - getItemQuantity items pizzaId)
            (MAX_TOTAL_ITEMS - getTotalQuantity items) ∧
          quantity ≤ min (MAX_QUANTITY_PER_ITEM - getItemQuantity items pizzaId)
            (MAX_TOTAL_ITEMS - getTotalQuantity items))) ∧
      ((selectCanAddToCart items pizzaId quantity).limitType ≠ .none →
        ((selectCanAddToCart items pizzaId quantity).limitType = .per_item ↔
          MAX_QUANTITY_PER_ITEM - getItemQuantity items pizzaId ≤
            MAX_TOTAL_ITEMS - getTotalQuantity items)) := by
  obtain ⟨hq0, hq25⟩ := getItemQuantity_bounds h pizzaId
  have htot : getTotalQuantity items ≤ MAX_TOTAL_ITEMS := h.2
  simp only [selectCanAddToCart, apply_ite CanAddResult.limitType]
  split_ifs with h1 h2 h3 h4
  · -- maxAddable ≤ 0, remainingPerItem ≤ 0: per_item
    refine ⟨⟨fun hn => by simp at hn, fun hq => absurd hq.1 (by omega)⟩,
      fun _ => ⟨fun _ => by omega, fun _ => rfl⟩⟩
  · -- maxAddable ≤ 0, remainingPerItem > 0: total
    refine ⟨⟨fun hn => by simp at hn, fun hq => absurd hq.1 (by omega)⟩,
      fun _ => ⟨fun hpe => by simp at hpe, fun hle => absurd hle (by omega)⟩⟩
  · -- maxAddable > 0, quantity > maxAddable, remainingPerItem ≤ remainingTotal
    refine ⟨⟨fun hn => by simp at hn, fun hq => absurd hq.2 (by omega)⟩,
      fun _ => ⟨fun _ => h4, fun _ => rfl⟩⟩
  · -- maxAddable > 0, quantity > maxAddable, remainingPerItem > remainingTotal
    refine ⟨⟨fun hn => by simp at hn, fun hq => absurd hq.2 (by omega)⟩,
      fun _ => ⟨fun hpe => by simp at hpe, fun hle => absurd hle h4⟩⟩
  · -- maxAddable > 0, quantity ≤ maxAddable: none
    exact ⟨⟨fun _ => ⟨by omega, by omega⟩, fun _ => rfl⟩,
      fun hne => absurd rfl hne⟩

/-- Witness for `selectCanAddToCart_classification` at the empty cart with a
request of 1. -/
theorem selectCanAddToCart_classification_witness :
    (selectCanAddToCart [] "a" 1).limitType = .none := by
  exact (selectCanAddToCart_classification [] "a" 1 CartInv_nil).1.mpr
    ⟨by decide, by decide⟩

end PizzaApp
